import Mathlib

/-!
# Code Diff Tool (Source/Core/DolphinQt/Debugger/CodeDiffDialog.cpp)

A shallow embedding of the narrowing engine of the code diff dialog: the
snapshot deduplicator `CalculateSymbolsFromProfile`, the two evidence
operations `OnInclude` and `OnExclude`, the helpers
`RemoveMissingSymbolsFromIncludes` and `RemoveMatchingSymbolsFromIncludes`,
the per-item `OnDelete`, `ClearData`, and the record toggle `OnRecord`.

Conventions of the embedding

* `std::string` is a `List Char` under the lexicographic order (the order of
  `std::string::operator<`); `u32` and `u64` values are `Nat` (the code does no
  arithmetic on them).
* `std::vector<Diff>` is `List Diff`; `erase(remove_if(...))` is `List.filter`
  with the negated predicate, `insert(pos, x)` is `take pos ++ x :: drop pos`.
* `std::lower_bound` is the textbook halving loop over an index range
  (`first`, `len`), run with fuel equal to the length of the vector.
* `std::sort` is an insertion sort driven by the comparator of the call.
  `CalculateSymbolsFromProfile` only sorts vectors whose symbols are pairwise
  distinct, where every correct sort returns the same vector
  (`sort_unique` below).
* Collaborators (`Core::GetState`, `JitInterface`, `g_symbolDB`) are fields of
  the state or parameters of the operation that reads them.
-/

namespace CodeDiff

/-- Modelled from the spec: `struct Diff` is declared in `CodeDiffDialog.h`,
which is not part of the sources; the record has a symbol name, an address
and a hit count. -/
structure Diff where
  symbol : List Char
  addr : Nat
  hits : Nat
deriving DecidableEq, Repr

/-- Modelled from the spec: the comparison `Diff < std::string` that
`std::lower_bound(m_exclude.begin(), m_exclude.end(), iter.symbol)` uses is
declared with `struct Diff` in the missing header; the spec describes it as a
search on `symbol_name`. -/
def Diff.lt_symbol (d : Diff) (val : List Char) : Bool :=
  decide (d.symbol < val)

/-- One entry of `Profiler::ProfileStats::block_stats`; only the two fields
read by `CalculateSymbolsFromProfile` are kept. -/
structure BlockStat where
  addr : Nat
  run_count : Nat
deriving DecidableEq, Repr

/-- The values of `Core::State` the dialog tests. -/
inductive CoreState where
  | Uninitialized
  | Paused
  | Running
deriving DecidableEq, Repr

/-- The two values of `JitInterface::ProfilingState`. -/
inductive ProfilingState where
  | Enabled
  | Disabled
deriving DecidableEq, Repr

/-- A row of `m_matching_results_list`: the header line written by `Update`,
or the line rendered from one record of `m_include`. -/
inductive Row where
  | header
  | entry (d : Diff)
deriving DecidableEq, Repr

/-- The members of `CodeDiffDialog` the operations touch, followed by the
state of the collaborators they call (`Core::GetState`/`SetState`,
`JitInterface::SetProfilingState`, and the number of
`JitInterface::ClearCache` calls so far). -/
structure CodeDiffDialog where
  m_include : List Diff
  m_exclude : List Diff
  m_matching_results_list : List Row
  m_record_btn_checked : Bool
  m_record_btn_text : String
  m_exclude_btn_enabled : Bool
  m_include_btn_enabled : Bool
  m_exclude_size_label : Nat
  m_include_size_label : Nat
  m_failed_requirements : Bool
  core_state : CoreState
  profiling_state : ProfilingState
  cache_clears : Nat
deriving DecidableEq, Repr

/-- The dialog as `CreateWidgets` leaves it: both vectors and the result list
empty, the record button unchecked, both mark buttons disabled. -/
def CodeDiffDialog.create (core : CoreState) (prof : ProfilingState) : CodeDiffDialog :=
  { m_include := []
    m_exclude := []
    m_matching_results_list := []
    m_record_btn_checked := false
    m_record_btn_text := "Start Recording"
    m_exclude_btn_enabled := false
    m_include_btn_enabled := false
    m_exclude_size_label := 0
    m_include_size_label := 0
    m_failed_requirements := false
    core_state := core
    profiling_state := prof
    cache_clears := 0 }

/-! ## Library routines -/

/-- The loop of `std::lower_bound` over `v[first .. first + len)`:
`while (len > 0) { half = len >> 1; middle = first + half;
if (*middle < val) { first = middle + 1; len = len - half - 1; } else len = half; }`. -/
def lower_bound_loop (v : List Diff) (val : List Char) : Nat → Nat → Nat → Nat
  | 0, first, _ => first
  | fuel + 1, first, len =>
    if len = 0 then first
    else
      let half := len / 2
      let middle := first + half
      match v[middle]? with
      | some e =>
        if e.lt_symbol val then lower_bound_loop v val fuel (middle + 1) (len - half - 1)
        else lower_bound_loop v val fuel first half
      | none => lower_bound_loop v val fuel first half

/-- The index returned by `std::lower_bound(v.begin(), v.end(), val)`. -/
def lower_bound (v : List Diff) (val : List Char) : Nat :=
  lower_bound_loop v val v.length 0 v.length

/-- The test `pos == m_exclude.end() || pos->symbol != iter.symbol`. -/
def not_at (v : List Diff) (pos : Nat) (symbol : List Char) : Bool :=
  match v[pos]? with
  | none => true
  | some e => e.symbol != symbol

/-- The call `v.insert(pos, x)` of `std::vector`. -/
def insert_at (v : List Diff) (pos : Nat) (x : Diff) : List Diff :=
  v.take pos ++ x :: v.drop pos

/-- Insertion of one element into a vector sorted by `comp`, before the first
element that `x` precedes. -/
def sort_insert (comp : Diff → Diff → Bool) (x : Diff) : List Diff → List Diff
  | [] => [x]
  | y :: ys => if comp x y then x :: y :: ys else y :: sort_insert comp x ys

/-- The call `sort(v.begin(), v.end(), comp)`. -/
def sort (comp : Diff → Diff → Bool) : List Diff → List Diff
  | [] => []
  | x :: xs => sort_insert comp x (sort comp xs)

/-! ## The narrowing engine -/

/-- The predicate `p.symbol == v.symbol || p.addr == v.addr` of the two
removal helpers. -/
def same_symbol_or_addr (p v : Diff) : Bool :=
  p.symbol == v.symbol || p.addr == v.addr

/-- The body of the loop of `CalculateSymbolsFromProfile`: a block whose
description is not yet in `current` is appended. -/
def add_block (GetDescription : Nat → List Char) (current : List Diff) (iter : BlockStat) :
    List Diff :=
  let symbol := GetDescription iter.addr
  if !(current.any fun v => v.symbol == symbol) then
    current ++ [{ symbol := symbol, addr := iter.addr, hits := iter.run_count }]
  else current

/-- `CodeDiffDialog::CalculateSymbolsFromProfile`, on the block statistics
returned by `JitInterface::GetProfileResults` and the symbol resolver
`g_symbolDB.GetDescription`. -/
def CalculateSymbolsFromProfile (blockstats : List BlockStat)
    (GetDescription : Nat → List Char) : List Diff :=
  sort (fun v1 v2 => decide (v1.symbol < v2.symbol))
    (blockstats.foldl (add_block GetDescription) [])

/-- `CodeDiffDialog::RemoveMissingSymbolsFromIncludes`: erase the records for
which `none_of(symbol_diff, same symbol or address)` holds. -/
def RemoveMissingSymbolsFromIncludes (symbol_diff : List Diff) (d : CodeDiffDialog) :
    CodeDiffDialog :=
  { d with m_include := d.m_include.filter fun v =>
      !(symbol_diff.all fun p => !(same_symbol_or_addr p v)) }

/-- `CodeDiffDialog::RemoveMatchingSymbolsFromIncludes`: erase the records for
which `any_of(symbol_list, same symbol or address)` holds. -/
def RemoveMatchingSymbolsFromIncludes (symbol_list : List Diff) (d : CodeDiffDialog) :
    CodeDiffDialog :=
  { d with m_include := d.m_include.filter fun i =>
      !(symbol_list.any fun s => same_symbol_or_addr i s) }

/-- The loop of `OnInclude` over `recorded_symbols`: a record whose symbol is
not found in `m_exclude` is pushed to `current_diff`. -/
def include_step (m_exclude : List Diff) (current_diff : List Diff) (iter : Diff) : List Diff :=
  let pos := lower_bound m_exclude iter.symbol
  if not_at m_exclude pos iter.symbol then current_diff ++ [iter] else current_diff

/-- `CodeDiffDialog::OnInclude`. -/
def OnInclude (blockstats : List BlockStat) (GetDescription : Nat → List Char)
    (d : CodeDiffDialog) : CodeDiffDialog :=
  let recorded_symbols := CalculateSymbolsFromProfile blockstats GetDescription
  if d.m_include.isEmpty && d.m_exclude.isEmpty then
    { d with m_include := recorded_symbols }
  else
    let current_diff :=
      if d.m_exclude.isEmpty then recorded_symbols
      else recorded_symbols.foldl (include_step d.m_exclude) []
    if !d.m_include.isEmpty then
      RemoveMissingSymbolsFromIncludes current_diff d
    else
      let d1 := { d with m_include := recorded_symbols }
      RemoveMatchingSymbolsFromIncludes d1.m_exclude d1

/-- The loop of `OnExclude` over `recorded_symbols`, on the pair
(`m_exclude`, `current_diff`): a record whose symbol is not found in
`m_exclude` is pushed to `current_diff` and inserted into `m_exclude` at the
position `std::lower_bound` returned. -/
def exclude_step (acc : List Diff × List Diff) (iter : Diff) : List Diff × List Diff :=
  let pos := lower_bound acc.1 iter.symbol
  if not_at acc.1 pos iter.symbol then (insert_at acc.1 pos iter, acc.2 ++ [iter]) else acc

/-- `CodeDiffDialog::OnExclude`. -/
def OnExclude (blockstats : List BlockStat) (GetDescription : Nat → List Char)
    (d : CodeDiffDialog) : CodeDiffDialog :=
  let recorded_symbols := CalculateSymbolsFromProfile blockstats GetDescription
  if d.m_include.isEmpty && d.m_exclude.isEmpty then
    { d with m_exclude := recorded_symbols }
  else if d.m_exclude.isEmpty then
    -- `current_diff` is still empty on this path
    let d1 := { d with m_exclude := recorded_symbols }
    if !d1.m_exclude.isEmpty then RemoveMatchingSymbolsFromIncludes [] d1 else d1
  else
    let acc := recorded_symbols.foldl exclude_step (d.m_exclude, [])
    let d1 := { d with m_exclude := acc.1 }
    if d1.m_include.isEmpty then d1
    else if !d1.m_exclude.isEmpty then RemoveMatchingSymbolsFromIncludes acc.2 d1
    else d1

/-- `CodeDiffDialog::ClearBlockCache`. -/
def ClearBlockCache (d : CodeDiffDialog) : CodeDiffDialog :=
  let old_state := d.core_state
  let d1 := if old_state = CoreState.Running then { d with core_state := CoreState.Paused } else d
  let d2 := { d1 with cache_clears := d1.cache_clears + 1 }
  if old_state = CoreState.Running then { d2 with core_state := CoreState.Running } else d2

/-- `CodeDiffDialog::Update`: the evidence operation wrapped in a pause, then
the result list rebuilt as the header row followed by one row per record of
`m_include` (the `addItem` after the constructor that already has the list as
parent adds no second row), the two size labels, and a cache clear. -/
def Update (incl : Bool) (blockstats : List BlockStat) (GetDescription : Nat → List Char)
    (d : CodeDiffDialog) : CodeDiffDialog :=
  let old_state := d.core_state
  let d1 := if old_state = CoreState.Running then { d with core_state := CoreState.Paused } else d
  let d2 := if incl then OnInclude blockstats GetDescription d1
            else OnExclude blockstats GetDescription d1
  let d3 := { d2 with
    m_matching_results_list := Row.header :: d2.m_include.map Row.entry
    m_exclude_size_label := d2.m_exclude.length
    m_include_size_label := d2.m_include.length
    cache_clears := d2.cache_clears + 1 }
  if old_state = CoreState.Running then { d3 with core_state := CoreState.Running } else d3

/-- `CodeDiffDialog::OnDelete`; `remove_item` is the value of
`m_matching_results_list->row(m_matching_results_list->currentItem())`, which
is `-1` when no row is current. -/
def OnDelete (remove_item : Int) (d : CodeDiffDialog) : CodeDiffDialog :=
  if remove_item = 0 ∨ remove_item = -1 then d
  else
    { d with
      m_include := d.m_include.eraseIdx (remove_item - 1).toNat
      m_matching_results_list := d.m_matching_results_list.eraseIdx remove_item.toNat }

/-! ## The record button -/

/-- `QAbstractButton::setChecked` on `m_record_btn`, whose `toggled` signal is
connected to `slot` (`ConnectWidgets`): nothing happens when the button
already has the requested state, otherwise the state changes and the slot runs
before the call returns. -/
def setChecked (slot : Bool → CodeDiffDialog → Option CodeDiffDialog) (checked : Bool)
    (d : CodeDiffDialog) : Option CodeDiffDialog :=
  if d.m_record_btn_checked = checked then some d
  else slot checked { d with m_record_btn_checked := checked }

/-- `CodeDiffDialog::OnRecord`, the slot of `m_record_btn`. `symbols_empty` is
the value of `g_symbolDB.IsEmpty()`; the fuel bounds the depth of the
re-entrant calls made through `setChecked`, and `none` means it ran out. -/
def OnRecord (symbols_empty : Bool) : Nat → Bool → CodeDiffDialog → Option CodeDiffDialog
  | 0, _, _ => none
  | fuel + 1, enabled, d =>
    if d.m_failed_requirements then
      some { d with m_failed_requirements := false }
    else if d.core_state = CoreState.Uninitialized then
      setChecked (fun b s => OnRecord symbols_empty fuel b s) false
        { d with m_failed_requirements := true }
    else if symbols_empty then
      setChecked (fun b s => OnRecord symbols_empty fuel b s) false
        { d with m_failed_requirements := true }
    else if enabled then
      let d1 := ClearBlockCache d
      some { d1 with
        m_record_btn_text := "Stop Recording"
        m_exclude_btn_enabled := true
        m_include_btn_enabled := true
        profiling_state := ProfilingState.Enabled }
    else
      let d1 := ClearBlockCache d
      some { d1 with
        m_record_btn_text := "Start Recording"
        m_exclude_btn_enabled := false
        m_include_btn_enabled := false
        profiling_state := ProfilingState.Disabled }

/-- `QAbstractButton::toggle` on `m_record_btn` (also what a click of the
checkable button does): `setChecked(!isChecked())`. -/
def toggle (symbols_empty : Bool) (fuel : Nat) (d : CodeDiffDialog) : Option CodeDiffDialog :=
  setChecked (fun b s => OnRecord symbols_empty fuel b s) (!d.m_record_btn_checked) d

/-- `CodeDiffDialog::ClearData`. -/
def ClearData (symbols_empty : Bool) (fuel : Nat) (d : CodeDiffDialog) :
    Option CodeDiffDialog :=
  (if d.m_record_btn_checked then toggle symbols_empty fuel d else some d).map fun d1 =>
    let d2 := ClearBlockCache d1
    { d2 with
      m_matching_results_list := []
      m_exclude_size_label := 0
      m_include_size_label := 0
      m_exclude_btn_enabled := false
      m_include_btn_enabled := false
      m_include := []
      m_exclude := []
      profiling_state := ProfilingState.Disabled }

/-! ## Sessions -/

/-- The states of the dialog reachable from a freshly created one: a press of
either mark button (`Update`), a delete of the current row (`OnDelete`, the
row being `-1` or a row of the list), `ClearData`, a click of the record
button, and a change of the emulator state from outside. The mark buttons are
not required to be enabled. -/
inductive Reachable : CodeDiffDialog → Prop where
  | create (core : CoreState) (prof : ProfilingState) :
      Reachable (CodeDiffDialog.create core prof)
  | mark (incl : Bool) (blockstats : List BlockStat) (GetDescription : Nat → List Char)
      {d : CodeDiffDialog} :
      Reachable d → Reachable (Update incl blockstats GetDescription d)
  | delete (remove_item : Int) {d : CodeDiffDialog} :
      Reachable d → -1 ≤ remove_item → remove_item < d.m_matching_results_list.length →
      Reachable (OnDelete remove_item d)
  | clear (symbols_empty : Bool) (fuel : Nat) {d d' : CodeDiffDialog} :
      Reachable d → ClearData symbols_empty fuel d = some d' → Reachable d'
  | record (symbols_empty : Bool) (fuel : Nat) {d d' : CodeDiffDialog} :
      Reachable d → toggle symbols_empty fuel d = some d' → Reachable d'
  | core (core : CoreState) {d : CodeDiffDialog} :
      Reachable d → Reachable { d with core_state := core }

/-- Ascending by symbol, repeats allowed. -/
def SortedBySymbol (l : List Diff) : Prop :=
  l.Pairwise fun a b => a.symbol ≤ b.symbol

/-- Strictly ascending by symbol. -/
def StrictlySorted (l : List Diff) : Prop :=
  l.Pairwise fun a b => a.symbol < b.symbol

instance (l : List Diff) : Decidable (SortedBySymbol l) :=
  inferInstanceAs (Decidable (l.Pairwise fun a b : Diff => a.symbol ≤ b.symbol))

instance (l : List Diff) : Decidable (StrictlySorted l) :=
  inferInstanceAs (Decidable (l.Pairwise fun a b : Diff => a.symbol < b.symbol))

/-! ## Concrete data -/

/-- A resolver with three symbols: `0x100` is in `foo`, `0x200` and `0x204`
are in `bar`, every other address is in `zz`. -/
def resolver (a : Nat) : List Char :=
  if a = 0x100 then "foo".toList
  else if a = 0x200 ∨ a = 0x204 then "bar".toList
  else "zz".toList

def foo5 : Diff := { symbol := "foo".toList, addr := 0x100, hits := 5 }

def foo9 : Diff := { symbol := "foo".toList, addr := 0x100, hits := 9 }

def bar3 : Diff := { symbol := "bar".toList, addr := 0x200, hits := 3 }

def snap_foo : List BlockStat := [{ addr := 0x100, run_count := 5 }]

def snap_bar : List BlockStat := [{ addr := 0x200, run_count := 3 }]

def snap_both : List BlockStat :=
  [{ addr := 0x100, run_count := 9 }, { addr := 0x200, run_count := 1 }]

def snap_foo_again : List BlockStat := [{ addr := 0x100, run_count := 0 }]

/-- A freshly created dialog while the emulator runs. -/
def fresh : CodeDiffDialog := CodeDiffDialog.create CoreState.Running ProfilingState.Disabled

/-- The dialog after a click on the record button of `fresh`, symbols
loaded: recording is on and both mark buttons are enabled. -/
def recording : CodeDiffDialog :=
  { fresh with
    m_record_btn_checked := true
    m_record_btn_text := "Stop Recording"
    m_exclude_btn_enabled := true
    m_include_btn_enabled := true
    profiling_state := ProfilingState.Enabled
    cache_clears := 1 }

/-- The recording dialog after emulation was stopped. -/
def recording_stopped : CodeDiffDialog :=
  { recording with core_state := CoreState.Uninitialized }

/-- Scenario A of the spec: the first positive evidence, `foo` ran. -/
def scenario_A : CodeDiffDialog := Update true snap_foo resolver recording

/-- Scenario B: then negative evidence, `bar` did not run. -/
def scenario_B : CodeDiffDialog := Update false snap_bar resolver scenario_A

/-- Scenario C: then positive evidence with `foo` and `bar`. -/
def scenario_C : CodeDiffDialog := Update true snap_both resolver scenario_B

/-- Negative evidence as the first evidence: `bar` did not run. -/
def exclude_first : CodeDiffDialog := Update false snap_bar resolver recording

/-- Positive evidence `foo`, then negative evidence `foo`. -/
def include_then_exclude : CodeDiffDialog := Update false snap_foo resolver scenario_A

/-! ## The binary search -/

theorem getElem?_split {v : List Diff} {m : Nat} {e : Diff} (h : v[m]? = some e) :
    v = v.take m ++ e :: v.drop (m + 1) := by
  obtain ⟨hm, he⟩ := List.getElem?_eq_some.mp h
  have h1 : v.drop m = e :: v.drop (m + 1) := by
    rw [List.drop_eq_getElem_cons hm, he]
  calc v = v.take m ++ v.drop m := (List.take_append_drop m v).symm
    _ = v.take m ++ e :: v.drop (m + 1) := by rw [h1]

theorem take_succ_of_getElem? {v : List Diff} {m : Nat} {e : Diff} (h : v[m]? = some e) :
    v.take (m + 1) = v.take m ++ [e] := by
  rw [List.take_succ, h]; rfl

theorem drop_of_getElem? {v : List Diff} {m : Nat} {e : Diff} (h : v[m]? = some e) :
    v.drop m = e :: v.drop (m + 1) := by
  obtain ⟨hm, he⟩ := List.getElem?_eq_some.mp h
  rw [List.drop_eq_getElem_cons hm, he]

/-- In a vector sorted by symbol, everything up to an element below `val` is
below `val`. -/
theorem below_of_sorted {v : List Diff} {m : Nat} {e : Diff} {val : List Char}
    (hs : SortedBySymbol v) (h : v[m]? = some e) (hlt : e.symbol < val) :
    ∀ x ∈ v.take (m + 1), x.symbol < val := by
  intro x hx
  rw [take_succ_of_getElem? h] at hx
  rcases List.mem_append.mp hx with hx | hx
  · have hv := getElem?_split h
    unfold SortedBySymbol at hs
    rw [hv] at hs
    have := (List.pairwise_append.mp hs).2.2 x hx e (List.mem_cons_self _ _)
    exact lt_of_le_of_lt this hlt
  · rw [List.mem_singleton] at hx
    rw [hx]; exact hlt

/-- In a vector sorted by symbol, everything from an element not below `val`
on is not below `val`. -/
theorem above_of_sorted {v : List Diff} {m : Nat} {e : Diff} {val : List Char}
    (hs : SortedBySymbol v) (h : v[m]? = some e) (hge : ¬ e.symbol < val) :
    ∀ x ∈ v.drop m, val ≤ x.symbol := by
  intro x hx
  rw [drop_of_getElem? h] at hx
  have hd : SortedBySymbol (e :: v.drop (m + 1)) := by
    rw [← drop_of_getElem? h]
    exact List.Pairwise.sublist (List.drop_sublist _ _) hs
  rcases List.mem_cons.mp hx with hx | hx
  · rw [hx]; exact not_lt.mp hge
  · exact le_trans (not_lt.mp hge) ((List.pairwise_cons.mp hd).1 x hx)

/-- The loop stays inside the range it was given. -/
theorem lower_bound_loop_range (v : List Diff) (val : List Char) :
    ∀ (fuel first len : Nat),
      first ≤ lower_bound_loop v val fuel first len ∧
      lower_bound_loop v val fuel first len ≤ first + len := by
  intro fuel
  induction fuel with
  | zero => intro first len; simp [lower_bound_loop]
  | succ fuel ih =>
    intro first len
    unfold lower_bound_loop
    by_cases hl : len = 0
    · simp [hl]
    · simp only [hl, if_false]
      have hhalf : len / 2 < len := Nat.div_lt_self (Nat.pos_of_ne_zero hl) (by decide)
      cases hm : v[first + len / 2]? with
      | none =>
        have := ih first (len / 2)
        simp only []
        omega
      | some e =>
        simp only []
        by_cases hc : e.lt_symbol val = true
        · simp only [hc, if_true]
          have := ih (first + len / 2 + 1) (len - len / 2 - 1)
          omega
        · simp only [hc]
          have := ih first (len / 2)
          simp only [Bool.false_eq_true, if_false] at *
          omega

theorem lower_bound_le_length (v : List Diff) (val : List Char) :
    lower_bound v val ≤ v.length := by
  have := (lower_bound_loop_range v val v.length 0 v.length).2
  unfold lower_bound; omega

/-- The loop invariant of the binary search on a sorted vector: the result
splits the vector into the symbols below `val` and the symbols not below. -/
theorem lower_bound_loop_spec {v : List Diff} (val : List Char) (hs : SortedBySymbol v) :
    ∀ (fuel first len : Nat), len ≤ fuel → first + len ≤ v.length →
      (∀ x ∈ v.take first, x.symbol < val) →
      (∀ x ∈ v.drop (first + len), val ≤ x.symbol) →
      (∀ x ∈ v.take (lower_bound_loop v val fuel first len), x.symbol < val) ∧
      (∀ x ∈ v.drop (lower_bound_loop v val fuel first len), val ≤ x.symbol) := by
  intro fuel
  induction fuel with
  | zero =>
    intro first len hf _ hlo hhi
    have : len = 0 := by omega
    subst this
    simpa [lower_bound_loop] using ⟨hlo, hhi⟩
  | succ fuel ih =>
    intro first len hf hb hlo hhi
    unfold lower_bound_loop
    by_cases hl : len = 0
    · subst hl
      simpa using ⟨hlo, hhi⟩
    · simp only [hl, if_false]
      have hhalf : len / 2 < len := Nat.div_lt_self (Nat.pos_of_ne_zero hl) (by decide)
      have hmid : first + len / 2 < v.length := by omega
      have hm : v[first + len / 2]? = some v[first + len / 2] := List.getElem?_eq_getElem hmid
      rw [hm]
      simp only []
      by_cases hc : v[first + len / 2].symbol < val
      · have hc' : v[first + len / 2].lt_symbol val = true := by
          simp [Diff.lt_symbol, hc]
        simp only [hc', if_true]
        apply ih
        · omega
        · omega
        · exact below_of_sorted hs hm hc
        · have : first + len / 2 + 1 + (len - len / 2 - 1) = first + len := by omega
          rw [this]; exact hhi
      · have hc' : v[first + len / 2].lt_symbol val = false := by
          simp [Diff.lt_symbol, hc]
        simp only [hc', Bool.false_eq_true, if_false]
        apply ih
        · omega
        · omega
        · exact hlo
        · exact above_of_sorted hs hm hc

/-- On a sorted vector `lower_bound` returns the partition point of `val`. -/
theorem lower_bound_spec {v : List Diff} (val : List Char) (hs : SortedBySymbol v) :
    (∀ x ∈ v.take (lower_bound v val), x.symbol < val) ∧
    (∀ x ∈ v.drop (lower_bound v val), val ≤ x.symbol) := by
  unfold lower_bound
  apply lower_bound_loop_spec val hs
  · exact le_refl _
  · omega
  · simp
  · simp

/-- When the test of the loops fails, the symbol is in the vector. -/
theorem mem_of_not_at_false {v : List Diff} {pos : Nat} {symbol : List Char}
    (h : not_at v pos symbol = false) : symbol ∈ v.map Diff.symbol := by
  unfold not_at at h
  cases hm : v[pos]? with
  | none => simp [hm] at h
  | some e =>
    simp [hm] at h
    obtain ⟨hp, he⟩ := List.getElem?_eq_some.mp hm
    exact List.mem_map.mpr ⟨e, he ▸ List.getElem_mem _, h⟩

/-- On a sorted vector the binary search finds every symbol that is there. -/
theorem not_at_lower_bound_of_mem {v : List Diff} {symbol : List Char}
    (hs : SortedBySymbol v) (h : symbol ∈ v.map Diff.symbol) :
    not_at v (lower_bound v symbol) symbol = false := by
  obtain ⟨hlo, hhi⟩ := lower_bound_spec symbol hs
  obtain ⟨x, hx, hxs⟩ := List.mem_map.mp h
  have hx' : x ∈ v.take (lower_bound v symbol) ++ v.drop (lower_bound v symbol) := by
    rw [List.take_append_drop]; exact hx
  rcases List.mem_append.mp hx' with hx' | hx'
  · have := hlo x hx'
    rw [hxs] at this
    exact absurd this (lt_irrefl _)
  · have hlen : lower_bound v symbol < v.length := by
      by_contra hcon
      rw [List.drop_eq_nil_of_le (not_lt.mp hcon)] at hx'
      simp at hx'
    have hm : v[lower_bound v symbol]? = some v[lower_bound v symbol] :=
      List.getElem?_eq_getElem hlen
    have hd := drop_of_getElem? hm
    have hge : symbol ≤ v[lower_bound v symbol].symbol :=
      hhi _ (by rw [hd]; exact List.mem_cons_self _ _)
    have hle : v[lower_bound v symbol].symbol ≤ symbol := by
      rw [hd] at hx'
      rcases List.mem_cons.mp hx' with hx' | hx'
      · rw [← hx', hxs]
      · have hsd : SortedBySymbol (v[lower_bound v symbol] :: v.drop (lower_bound v symbol + 1)) := by
          rw [← hd]
          exact List.Pairwise.sublist (List.drop_sublist _ _) hs
        have := (List.pairwise_cons.mp hsd).1 x hx'
        rw [hxs] at this
        exact this
    unfold not_at
    rw [hm]
    simp [le_antisymm hle hge]

/-- On a sorted vector the test of the loops is plain membership of the
symbol. -/
theorem not_at_lower_bound_eq {v : List Diff} (symbol : List Char) (hs : SortedBySymbol v) :
    not_at v (lower_bound v symbol) symbol = !decide (symbol ∈ v.map Diff.symbol) := by
  by_cases h : symbol ∈ v.map Diff.symbol
  · rw [not_at_lower_bound_of_mem hs h]; simp [h]
  · cases hn : not_at v (lower_bound v symbol) symbol
    · exact absurd (mem_of_not_at_false hn) h
    · simp [h]

/-! ## Insertion and sorting -/

theorem StrictlySorted.sorted {l : List Diff} (h : StrictlySorted l) : SortedBySymbol l :=
  List.Pairwise.imp (fun hab => le_of_lt hab) h

theorem StrictlySorted.nodup {l : List Diff} (h : StrictlySorted l) :
    (l.map Diff.symbol).Nodup := by
  unfold List.Nodup
  rw [List.pairwise_map]
  exact List.Pairwise.imp (fun hab => ne_of_lt hab) h

theorem insert_at_perm (v : List Diff) (pos : Nat) (x : Diff) :
    (insert_at v pos x).Perm (x :: v) := by
  unfold insert_at
  have h1 : (v.take pos ++ x :: v.drop pos).Perm (x :: (v.take pos ++ v.drop pos)) :=
    List.perm_middle
  rwa [List.take_append_drop] at h1

theorem sublist_insert_at (v : List Diff) (pos : Nat) (x : Diff) :
    v.Sublist (insert_at v pos x) := by
  unfold insert_at
  have h : (v.take pos ++ v.drop pos).Sublist (v.take pos ++ x :: v.drop pos) :=
    List.Sublist.append (List.Sublist.refl _) (List.sublist_cons_self _ _)
  rwa [List.take_append_drop] at h

theorem mem_insert_at {v : List Diff} {pos : Nat} {x y : Diff} :
    y ∈ insert_at v pos x ↔ y = x ∨ y ∈ v := by
  rw [(insert_at_perm v pos x).mem_iff, List.mem_cons]

/-- Inserting at the partition point of the symbol keeps the vector sorted. -/
theorem insert_at_sorted {v : List Diff} {pos : Nat} {x : Diff} (hs : SortedBySymbol v)
    (hlo : ∀ e ∈ v.take pos, e.symbol < x.symbol)
    (hhi : ∀ e ∈ v.drop pos, x.symbol ≤ e.symbol) :
    SortedBySymbol (insert_at v pos x) := by
  unfold insert_at SortedBySymbol
  rw [List.pairwise_append]
  refine ⟨List.Pairwise.sublist (List.take_sublist _ _) hs, ?_, ?_⟩
  · rw [List.pairwise_cons]
    exact ⟨hhi, List.Pairwise.sublist (List.drop_sublist _ _) hs⟩
  · intro a ha b hb
    rcases List.mem_cons.mp hb with hb | hb
    · rw [hb]; exact le_of_lt (hlo a ha)
    · exact le_trans (le_of_lt (hlo a ha)) (hhi b hb)

/-- Inserting a new symbol at its partition point keeps the vector strictly
sorted. -/
theorem insert_at_strict {v : List Diff} {pos : Nat} {x : Diff} (hs : StrictlySorted v)
    (hlo : ∀ e ∈ v.take pos, e.symbol < x.symbol)
    (hhi : ∀ e ∈ v.drop pos, x.symbol ≤ e.symbol)
    (hnew : x.symbol ∉ v.map Diff.symbol) :
    StrictlySorted (insert_at v pos x) := by
  have hhi' : ∀ e ∈ v.drop pos, x.symbol < e.symbol := by
    intro e he
    refine lt_of_le_of_ne (hhi e he) ?_
    intro heq
    exact hnew (List.mem_map.mpr ⟨e, List.mem_of_mem_drop he, heq.symm⟩)
  unfold insert_at StrictlySorted
  rw [List.pairwise_append]
  refine ⟨List.Pairwise.sublist (List.take_sublist _ _) hs, ?_, ?_⟩
  · rw [List.pairwise_cons]
    exact ⟨hhi', List.Pairwise.sublist (List.drop_sublist _ _) hs⟩
  · intro a ha b hb
    rcases List.mem_cons.mp hb with hb | hb
    · rw [hb]; exact hlo a ha
    · exact lt_trans (hlo a ha) (hhi' b hb)

theorem sort_insert_perm (comp : Diff → Diff → Bool) (x : Diff) (l : List Diff) :
    (sort_insert comp x l).Perm (x :: l) := by
  induction l with
  | nil => exact List.Perm.refl _
  | cons y ys ih =>
    unfold sort_insert
    by_cases hc : comp x y = true
    · simp only [hc, if_true]; exact List.Perm.refl _
    · simp only [hc]
      exact (List.Perm.cons y ih).trans (List.Perm.swap x y ys)

theorem sort_perm (comp : Diff → Diff → Bool) (l : List Diff) : (sort comp l).Perm l := by
  induction l with
  | nil => exact List.Perm.refl _
  | cons x xs ih =>
    unfold sort
    exact (sort_insert_perm comp x _).trans (List.Perm.cons x ih)

theorem sort_insert_strict {x : Diff} {l : List Diff} (hs : StrictlySorted l)
    (hnew : x.symbol ∉ l.map Diff.symbol) :
    StrictlySorted (sort_insert (fun v1 v2 => decide (v1.symbol < v2.symbol)) x l) := by
  induction l with
  | nil => simp [sort_insert, StrictlySorted]
  | cons y ys ih =>
    unfold sort_insert
    have hy := List.pairwise_cons.mp hs
    by_cases hc : x.symbol < y.symbol
    · simp only [hc, decide_True, if_true]
      unfold StrictlySorted
      rw [List.pairwise_cons]
      refine ⟨?_, hs⟩
      intro a ha
      rcases List.mem_cons.mp ha with ha | ha
      · rw [ha]; exact hc
      · exact lt_trans hc (hy.1 a ha)
    · simp only [hc, decide_False, Bool.false_eq_true, if_false]
      have hne : x.symbol ≠ y.symbol := by
        intro heq; exact hnew (by simp [heq])
      have hyx : y.symbol < x.symbol := lt_of_le_of_ne (not_lt.mp hc) (Ne.symm hne)
      have hnew' : x.symbol ∉ ys.map Diff.symbol := by
        intro hmem; exact hnew (by simp at hmem ⊢; exact Or.inr hmem)
      unfold StrictlySorted
      rw [List.pairwise_cons]
      refine ⟨?_, ih hy.2 hnew'⟩
      intro a ha
      rcases List.mem_cons.mp ((sort_insert_perm _ x ys).mem_iff.mp ha) with ha | ha
      · rw [ha]; exact hyx
      · exact hy.1 a ha

/-- Sorting a vector whose symbols are pairwise distinct gives a strictly
ascending vector. -/
theorem sort_strict {l : List Diff} (hn : (l.map Diff.symbol).Nodup) :
    StrictlySorted (sort (fun v1 v2 => decide (v1.symbol < v2.symbol)) l) := by
  induction l with
  | nil => simp [sort, StrictlySorted]
  | cons x xs ih =>
    unfold sort
    rw [List.map_cons, List.nodup_cons] at hn
    apply sort_insert_strict (ih hn.2)
    intro hmem
    apply hn.1
    obtain ⟨a, ha, hax⟩ := List.mem_map.mp hmem
    exact List.mem_map.mpr ⟨a, (sort_perm _ xs).mem_iff.mp ha, hax⟩

/-- Any arrangement of a vector with pairwise distinct symbols in which no
later element precedes an earlier one under the comparator is the vector
`sort` returns: the choice of sorting algorithm does not matter here. -/
theorem sort_unique {l l' : List Diff} (hn : (l.map Diff.symbol).Nodup) (hp : l'.Perm l)
    (hs : l'.Pairwise fun a b => decide (b.symbol < a.symbol) = false) :
    l' = sort (fun v1 v2 => decide (v1.symbol < v2.symbol)) l := by
  have hn' : (l'.map Diff.symbol).Nodup := (hp.map Diff.symbol).nodup_iff.mpr hn
  have hs' : StrictlySorted l' := by
    unfold List.Nodup at hn'
    rw [List.pairwise_map] at hn'
    unfold StrictlySorted
    refine List.Pairwise.imp₂ ?_ hs hn'
    intro a b hba hne
    simp only [decide_eq_false_iff_not, not_lt] at hba
    exact lt_of_le_of_ne hba hne
  refine List.Perm.eq_of_sorted ?_ hs' (sort_strict hn) (hp.trans (sort_perm _ l).symm)
  intro a b _ _ hab hba
  exact absurd (lt_trans hab hba) (lt_irrefl _)

/-! ## The deduplicating loop -/

theorem any_symbol_eq (l : List Diff) (symbol : List Char) :
    (l.any fun v => v.symbol == symbol) = decide (symbol ∈ l.map Diff.symbol) := by
  induction l with
  | nil => simp
  | cons x xs ih =>
    rw [List.any_cons, ih]
    by_cases h : x.symbol = symbol
    · simp [h]
    · have h' : ¬ symbol = x.symbol := fun e => h e.symm
      simp [h, h']

theorem add_block_of_mem {GetDescription : Nat → List Char} {current : List Diff}
    {iter : BlockStat} (h : GetDescription iter.addr ∈ current.map Diff.symbol) :
    add_block GetDescription current iter = current := by
  simp [add_block, any_symbol_eq, h]

theorem add_block_of_not_mem {GetDescription : Nat → List Char} {current : List Diff}
    {iter : BlockStat} (h : GetDescription iter.addr ∉ current.map Diff.symbol) :
    add_block GetDescription current iter =
      current ++ [{ symbol := GetDescription iter.addr, addr := iter.addr,
                    hits := iter.run_count }] := by
  simp [add_block, any_symbol_eq, h]

theorem foldl_add_block_nodup (GetDescription : Nat → List Char) (bs : List BlockStat) :
    ∀ current : List Diff, (current.map Diff.symbol).Nodup →
      ((bs.foldl (add_block GetDescription) current).map Diff.symbol).Nodup := by
  induction bs with
  | nil => intro current h; exact h
  | cons b bs ih =>
    intro current h
    rw [List.foldl_cons]
    apply ih
    by_cases hm : GetDescription b.addr ∈ current.map Diff.symbol
    · rw [add_block_of_mem hm]; exact h
    · rw [add_block_of_not_mem hm, List.map_append, List.nodup_append]
      refine ⟨h, by simp, ?_⟩
      intro n hn hn'
      simp only [List.map_cons, List.map_nil, List.mem_singleton] at hn'
      exact hm (hn' ▸ hn)

theorem foldl_add_block_symbols (GetDescription : Nat → List Char) (bs : List BlockStat) :
    ∀ (current : List Diff) (n : List Char),
      n ∈ (bs.foldl (add_block GetDescription) current).map Diff.symbol ↔
        n ∈ current.map Diff.symbol ∨ ∃ b ∈ bs, GetDescription b.addr = n := by
  induction bs with
  | nil => intro current n; simp
  | cons b bs ih =>
    intro current n
    rw [List.foldl_cons, ih]
    by_cases hm : GetDescription b.addr ∈ current.map Diff.symbol
    · rw [add_block_of_mem hm]
      constructor
      · rintro (h | ⟨x, hx, hxn⟩)
        · exact Or.inl h
        · exact Or.inr ⟨x, List.mem_cons_of_mem _ hx, hxn⟩
      · rintro (h | ⟨x, hx, hxn⟩)
        · exact Or.inl h
        · rcases List.mem_cons.mp hx with hx | hx
          · subst hx; exact Or.inl (hxn ▸ hm)
          · exact Or.inr ⟨x, hx, hxn⟩
    · rw [add_block_of_not_mem hm]
      constructor
      · rintro (h | ⟨x, hx, hxn⟩)
        · rw [List.map_append, List.mem_append] at h
          rcases h with h | h
          · exact Or.inl h
          · simp only [List.map_cons, List.map_nil, List.mem_singleton] at h
            exact Or.inr ⟨b, List.mem_cons_self _ _, h.symm⟩
        · exact Or.inr ⟨x, List.mem_cons_of_mem _ hx, hxn⟩
      · rintro (h | ⟨x, hx, hxn⟩)
        · exact Or.inl (by rw [List.map_append, List.mem_append]; exact Or.inl h)
        · rcases List.mem_cons.mp hx with hx | hx
          · subst hx
            refine Or.inl ?_
            rw [List.map_append, List.mem_append]
            exact Or.inr (by simp [hxn])
          · exact Or.inr ⟨x, hx, hxn⟩

/-- Every record the loop adds is the one built from the first block, in
iteration order, whose description is the record's symbol. -/
theorem foldl_add_block_first (GetDescription : Nat → List Char) (bs : List BlockStat) :
    ∀ (current : List Diff) (d : Diff),
      d ∈ bs.foldl (add_block GetDescription) current →
        d ∈ current ∨ (d.symbol ∉ current.map Diff.symbol ∧
          ∃ b, bs.find? (fun x => GetDescription x.addr == d.symbol) = some b ∧
            d = { symbol := GetDescription b.addr, addr := b.addr, hits := b.run_count }) := by
  induction bs with
  | nil => intro current d h; exact Or.inl h
  | cons b bs ih =>
    intro current d h
    rw [List.foldl_cons] at h
    by_cases hm : GetDescription b.addr ∈ current.map Diff.symbol
    · rw [add_block_of_mem hm] at h
      rcases ih current d h with h | ⟨hd, x, hx, hdx⟩
      · exact Or.inl h
      · refine Or.inr ⟨hd, x, ?_, hdx⟩
        have hne : ¬ GetDescription b.addr = d.symbol := fun e => hd (e ▸ hm)
        have hbq : (GetDescription b.addr == d.symbol) = false := by simpa using hne
        rw [List.find?_cons, hbq]
        exact hx
    · rw [add_block_of_not_mem hm] at h
      rcases ih _ d h with h | ⟨hd, x, hx, hdx⟩
      · rcases List.mem_append.mp h with h | h
        · exact Or.inl h
        · rw [List.mem_singleton] at h
          refine Or.inr ⟨?_, b, ?_, h⟩
          · rw [h]; exact hm
          · rw [List.find?_cons]
            simp [h]
      · refine Or.inr ⟨?_, x, ?_, hdx⟩
        · intro hmem
          exact hd (by rw [List.map_append, List.mem_append]; exact Or.inl hmem)
        · have hne : ¬ GetDescription b.addr = d.symbol := by
            intro e
            apply hd
            rw [List.map_append, List.mem_append]
            exact Or.inr (by simp [e])
          have hbq : (GetDescription b.addr == d.symbol) = false := by simpa using hne
          rw [List.find?_cons, hbq]
          exact hx

theorem recorded_strict (blockstats : List BlockStat) (GetDescription : Nat → List Char) :
    StrictlySorted (CalculateSymbolsFromProfile blockstats GetDescription) :=
  sort_strict (foldl_add_block_nodup GetDescription blockstats [] (by simp))

theorem recorded_symbols_iff (blockstats : List BlockStat) (GetDescription : Nat → List Char)
    (n : List Char) :
    n ∈ (CalculateSymbolsFromProfile blockstats GetDescription).map Diff.symbol ↔
      ∃ b ∈ blockstats, GetDescription b.addr = n := by
  unfold CalculateSymbolsFromProfile
  rw [((sort_perm _ _).map Diff.symbol).mem_iff, foldl_add_block_symbols]
  simp

theorem recorded_mem_iff (blockstats : List BlockStat) (GetDescription : Nat → List Char)
    (d : Diff) :
    d ∈ CalculateSymbolsFromProfile blockstats GetDescription ↔
      ∃ b, blockstats.find? (fun x => GetDescription x.addr == d.symbol) = some b ∧
        d = { symbol := GetDescription b.addr, addr := b.addr, hits := b.run_count } := by
  constructor
  · intro h
    unfold CalculateSymbolsFromProfile at h
    rw [(sort_perm _ _).mem_iff] at h
    rcases foldl_add_block_first GetDescription blockstats [] d h with h | ⟨_, hb⟩
    · simp at h
    · exact hb
  · rintro ⟨b, hb, hd⟩
    have hbs : GetDescription b.addr = d.symbol := by
      have := List.find?_some hb
      simpa using this
    have hn : d.symbol ∈ (CalculateSymbolsFromProfile blockstats GetDescription).map
        Diff.symbol :=
      (recorded_symbols_iff blockstats GetDescription d.symbol).mpr
        ⟨b, List.mem_of_find?_eq_some hb, hbs⟩
    obtain ⟨e, he, hes⟩ := List.mem_map.mp hn
    have he' := he
    unfold CalculateSymbolsFromProfile at he'
    rw [(sort_perm _ _).mem_iff] at he'
    rcases foldl_add_block_first GetDescription blockstats [] e he' with h | ⟨_, x, hx, hex⟩
    · simp at h
    · rw [hes, hb] at hx
      have hxb : b = x := Option.some.inj hx
      rw [hd, hxb, ← hex]
      exact he

/-! ## The loops of `OnInclude` and `OnExclude` -/

theorem foldl_include_step (m_exclude : List Diff) (l : List Diff) :
    ∀ current_diff : List Diff,
      l.foldl (include_step m_exclude) current_diff =
        current_diff ++ l.filter fun p =>
          not_at m_exclude (lower_bound m_exclude p.symbol) p.symbol := by
  induction l with
  | nil => intro c; simp
  | cons p ps ih =>
    intro c
    rw [List.foldl_cons, ih]
    unfold include_step
    by_cases h : not_at m_exclude (lower_bound m_exclude p.symbol) p.symbol = true
    · simp [h, List.filter_cons]
    · simp [h, List.filter_cons]

theorem filter_absent_congr {ex ex' : List Diff} {l : List Diff}
    (h : ∀ q ∈ l, (q.symbol ∈ ex'.map Diff.symbol ↔ q.symbol ∈ ex.map Diff.symbol)) :
    (l.filter fun p => !decide (p.symbol ∈ ex'.map Diff.symbol)) =
      l.filter fun p => !decide (p.symbol ∈ ex.map Diff.symbol) := by
  apply List.filter_congr
  intro q hq
  have := h q hq
  by_cases hm : q.symbol ∈ ex.map Diff.symbol
  · have hm' := this.mpr hm
    simp only [hm, hm', decide_True]
  · have hm' : q.symbol ∉ ex'.map Diff.symbol := fun h' => hm (this.mp h')
    simp only [hm, hm', decide_False]

theorem exclude_step_of_mem {ex cur : List Diff} {p : Diff} (hs : SortedBySymbol ex)
    (h : p.symbol ∈ ex.map Diff.symbol) : exclude_step (ex, cur) p = (ex, cur) := by
  unfold exclude_step
  simp only [not_at_lower_bound_eq p.symbol hs, h, decide_True, Bool.not_true,
    Bool.false_eq_true, if_false]

theorem exclude_step_of_not_mem {ex cur : List Diff} {p : Diff} (hs : SortedBySymbol ex)
    (h : p.symbol ∉ ex.map Diff.symbol) :
    exclude_step (ex, cur) p = (insert_at ex (lower_bound ex p.symbol) p, cur ++ [p]) := by
  unfold exclude_step
  simp only [not_at_lower_bound_eq p.symbol hs, h, decide_False, Bool.not_false, if_true]

/-- The loop of `OnExclude` on a sorted `m_exclude` and a recording with
pairwise distinct symbols: `current_diff` collects the records whose symbol is
not in the old `m_exclude`, and `m_exclude` becomes the sorted merge of the
old vector with them. -/
theorem foldl_exclude_step (l : List Diff) :
    ∀ (ex cur : List Diff), SortedBySymbol ex → (l.map Diff.symbol).Nodup →
      (l.foldl exclude_step (ex, cur)).2 =
          cur ++ l.filter (fun p => !decide (p.symbol ∈ ex.map Diff.symbol)) ∧
      SortedBySymbol (l.foldl exclude_step (ex, cur)).1 ∧
      (l.foldl exclude_step (ex, cur)).1.Perm
          (ex ++ l.filter (fun p => !decide (p.symbol ∈ ex.map Diff.symbol))) ∧
      (StrictlySorted ex → StrictlySorted (l.foldl exclude_step (ex, cur)).1) := by
  induction l with
  | nil =>
    intro ex cur hs _
    simp only [List.foldl_nil, List.filter_nil, List.append_nil]
    exact ⟨trivial, hs, List.Perm.refl _, fun h => h⟩
  | cons p ps ih =>
    intro ex cur hs hn
    rw [List.map_cons, List.nodup_cons] at hn
    rw [List.foldl_cons]
    by_cases hm : p.symbol ∈ ex.map Diff.symbol
    · rw [exclude_step_of_mem hs hm]
      have hf : (p :: ps).filter (fun p => !decide (p.symbol ∈ ex.map Diff.symbol)) =
          ps.filter (fun p => !decide (p.symbol ∈ ex.map Diff.symbol)) := by
        rw [List.filter_cons]; simp only [hm, decide_True, Bool.not_true, Bool.false_eq_true,
          if_false]
      rw [hf]
      exact ih ex cur hs hn.2
    · rw [exclude_step_of_not_mem hs hm]
      have hf : (p :: ps).filter (fun p => !decide (p.symbol ∈ ex.map Diff.symbol)) =
          p :: ps.filter (fun p => !decide (p.symbol ∈ ex.map Diff.symbol)) := by
        rw [List.filter_cons]; simp only [hm, decide_False, Bool.not_false, if_true]
      rw [hf]
      obtain ⟨hlo, hhi⟩ := lower_bound_spec p.symbol hs
      have hs1 : SortedBySymbol (insert_at ex (lower_bound ex p.symbol) p) :=
        insert_at_sorted hs hlo hhi
      have hcongr : (ps.filter fun q => !decide (q.symbol ∈
            (insert_at ex (lower_bound ex p.symbol) p).map Diff.symbol)) =
          ps.filter fun q => !decide (q.symbol ∈ ex.map Diff.symbol) := by
        apply filter_absent_congr
        intro q hq
        constructor
        · intro hqm
          obtain ⟨e, he, heq⟩ := List.mem_map.mp hqm
          rcases mem_insert_at.mp he with he | he
          · exfalso
            apply hn.1
            rw [he] at heq
            exact List.mem_map.mpr ⟨q, hq, heq.symm⟩
          · exact List.mem_map.mpr ⟨e, he, heq⟩
        · intro hqm
          obtain ⟨e, he, heq⟩ := List.mem_map.mp hqm
          exact List.mem_map.mpr ⟨e, mem_insert_at.mpr (Or.inr he), heq⟩
      obtain ⟨h1, h2, h3, h4⟩ :=
        ih (insert_at ex (lower_bound ex p.symbol) p) (cur ++ [p]) hs1 hn.2
      rw [hcongr] at h1 h3
      refine ⟨?_, h2, ?_, ?_⟩
      · rw [h1]; simp
      · refine h3.trans ?_
        refine (List.Perm.append_right _ (insert_at_perm ex _ p)).trans ?_
        exact (@List.perm_middle _ p ex _).symm
      · intro hst
        exact h4 (insert_at_strict hst hlo hhi hm)

/-- Without any assumption the loop of `OnExclude` only inserts: the old
`m_exclude` is a subsequence of the new one. -/
theorem foldl_exclude_step_sublist (l : List Diff) :
    ∀ (ex cur : List Diff), ex.Sublist (l.foldl exclude_step (ex, cur)).1 := by
  induction l with
  | nil => intro ex cur; exact List.Sublist.refl _
  | cons p ps ih =>
    intro ex cur
    rw [List.foldl_cons]
    unfold exclude_step
    by_cases h : not_at ex (lower_bound ex p.symbol) p.symbol = true
    · simp only [h, if_true]
      exact (sublist_insert_at ex _ p).trans (ih _ _)
    · simp only [h]
      exact ih _ _

theorem not_all_not (l : List Diff) (f : Diff → Bool) :
    (!(l.all fun p => !(f p))) = l.any f := by
  induction l with
  | nil => simp
  | cons x xs ih =>
    rw [List.all_cons, List.any_cons, ← ih]
    cases f x <;> simp

/-! ## What each operation does to the two vectors -/

theorem OnInclude_exclude (blockstats : List BlockStat) (GetDescription : Nat → List Char)
    (d : CodeDiffDialog) : (OnInclude blockstats GetDescription d).m_exclude = d.m_exclude := by
  unfold OnInclude RemoveMissingSymbolsFromIncludes RemoveMatchingSymbolsFromIncludes
  simp only []
  split
  · rfl
  · split <;> rfl

theorem OnInclude_both_empty (blockstats : List BlockStat) (GetDescription : Nat → List Char)
    {d : CodeDiffDialog} (hi : d.m_include = []) (he : d.m_exclude = []) :
    (OnInclude blockstats GetDescription d).m_include =
      CalculateSymbolsFromProfile blockstats GetDescription := by
  unfold OnInclude
  simp [hi, he]

theorem OnInclude_nonempty (blockstats : List BlockStat) (GetDescription : Nat → List Char)
    {d : CodeDiffDialog} (hi : d.m_include ≠ []) :
    (OnInclude blockstats GetDescription d).m_include =
      d.m_include.filter fun v =>
        ((CalculateSymbolsFromProfile blockstats GetDescription).filter fun p =>
          not_at d.m_exclude (lower_bound d.m_exclude p.symbol) p.symbol).any
            fun p => same_symbol_or_addr p v := by
  have hi' : d.m_include.isEmpty = false := by
    cases h : d.m_include with
    | nil => exact absurd h hi
    | cons a l => rfl
  unfold OnInclude RemoveMissingSymbolsFromIncludes
  simp only [hi', Bool.false_and, Bool.false_eq_true, if_false, Bool.not_false, if_true]
  by_cases he : d.m_exclude = []
  · have hall : ∀ p ∈ CalculateSymbolsFromProfile blockstats GetDescription,
        not_at d.m_exclude (lower_bound d.m_exclude p.symbol) p.symbol = true := by
      intro p _
      rw [he]; rfl
    rw [List.filter_eq_self.mpr hall]
    simp only [he, List.isEmpty_nil, if_true, not_all_not]
  · have he' : d.m_exclude.isEmpty = false := by
      cases h : d.m_exclude with
      | nil => exact absurd h he
      | cons a l => rfl
    simp only [he', Bool.false_eq_true, if_false, foldl_include_step, List.nil_append,
      not_all_not]

theorem OnInclude_first_after_exclude (blockstats : List BlockStat)
    (GetDescription : Nat → List Char) {d : CodeDiffDialog} (hi : d.m_include = [])
    (he : d.m_exclude ≠ []) :
    (OnInclude blockstats GetDescription d).m_include =
      (CalculateSymbolsFromProfile blockstats GetDescription).filter fun i =>
        !(d.m_exclude.any fun s => same_symbol_or_addr i s) := by
  have he' : d.m_exclude.isEmpty = false := by
    cases h : d.m_exclude with
    | nil => exact absurd h he
    | cons a l => rfl
  unfold OnInclude RemoveMatchingSymbolsFromIncludes
  simp [hi, he']

theorem OnExclude_include_of_empty (blockstats : List BlockStat)
    (GetDescription : Nat → List Char) {d : CodeDiffDialog} (he : d.m_exclude = []) :
    (OnExclude blockstats GetDescription d).m_include = d.m_include ∧
    (OnExclude blockstats GetDescription d).m_exclude =
      CalculateSymbolsFromProfile blockstats GetDescription := by
  unfold OnExclude RemoveMatchingSymbolsFromIncludes
  simp only [he, List.isEmpty_nil, Bool.and_true, if_true]
  split
  · exact ⟨rfl, rfl⟩
  · split
    · simp
    · exact ⟨rfl, rfl⟩

theorem OnExclude_of_nonempty (blockstats : List BlockStat)
    (GetDescription : Nat → List Char) {d : CodeDiffDialog} (he : d.m_exclude ≠ []) :
    (OnExclude blockstats GetDescription d).m_exclude =
      ((CalculateSymbolsFromProfile blockstats GetDescription).foldl exclude_step
        (d.m_exclude, [])).1 ∧
    (OnExclude blockstats GetDescription d).m_include =
      d.m_include.filter fun i =>
        !(((CalculateSymbolsFromProfile blockstats GetDescription).foldl exclude_step
          (d.m_exclude, [])).2.any fun s => same_symbol_or_addr i s) := by
  have he' : d.m_exclude.isEmpty = false := by
    cases h : d.m_exclude with
    | nil => exact absurd h he
    | cons a l => rfl
  have hne : ((CalculateSymbolsFromProfile blockstats GetDescription).foldl exclude_step
      (d.m_exclude, [])).1.isEmpty = false := by
    have hsub := foldl_exclude_step_sublist
      (CalculateSymbolsFromProfile blockstats GetDescription) d.m_exclude []
    cases h : ((CalculateSymbolsFromProfile blockstats GetDescription).foldl exclude_step
      (d.m_exclude, [])).1 with
    | nil =>
      rw [h] at hsub
      exact absurd (List.sublist_nil.mp hsub) he
    | cons a l => rfl
  unfold OnExclude RemoveMatchingSymbolsFromIncludes
  simp only [he', Bool.and_false, Bool.false_eq_true, if_false, hne, Bool.not_false, if_true]
  by_cases hi : d.m_include = []
  · simp [hi]
  · have hi' : d.m_include.isEmpty = false := by
      cases h : d.m_include with
      | nil => exact absurd h hi
      | cons a l => rfl
    simp [hi']

/-! ## The operations only read and write the two vectors -/

theorem OnInclude_congr (blockstats : List BlockStat) (GetDescription : Nat → List Char)
    {d d' : CodeDiffDialog} (hi : d'.m_include = d.m_include) (he : d'.m_exclude = d.m_exclude) :
    (OnInclude blockstats GetDescription d').m_include =
      (OnInclude blockstats GetDescription d).m_include := by
  simp only [OnInclude, RemoveMissingSymbolsFromIncludes, RemoveMatchingSymbolsFromIncludes,
    hi, he]
  split
  · rfl
  · split <;> rfl

theorem OnExclude_congr (blockstats : List BlockStat) (GetDescription : Nat → List Char)
    {d d' : CodeDiffDialog} (hi : d'.m_include = d.m_include) (he : d'.m_exclude = d.m_exclude) :
    (OnExclude blockstats GetDescription d').m_include =
        (OnExclude blockstats GetDescription d).m_include ∧
    (OnExclude blockstats GetDescription d').m_exclude =
        (OnExclude blockstats GetDescription d).m_exclude := by
  simp only [OnExclude, RemoveMatchingSymbolsFromIncludes, hi, he]
  split
  · exact ⟨rfl, rfl⟩
  · split
    · split <;> exact ⟨rfl, rfl⟩
    · split
      · exact ⟨rfl, rfl⟩
      · split <;> exact ⟨rfl, rfl⟩

theorem Update_true_include (blockstats : List BlockStat) (GetDescription : Nat → List Char)
    (d : CodeDiffDialog) :
    (Update true blockstats GetDescription d).m_include =
      (OnInclude blockstats GetDescription d).m_include := by
  unfold Update
  by_cases hc : d.core_state = CoreState.Running
  · simp only [hc, if_true]
    exact @OnInclude_congr blockstats GetDescription d
      { d with core_state := CoreState.Paused } rfl rfl
  · simp only [hc, if_false, if_true]

theorem Update_true_exclude (blockstats : List BlockStat) (GetDescription : Nat → List Char)
    (d : CodeDiffDialog) :
    (Update true blockstats GetDescription d).m_exclude = d.m_exclude := by
  unfold Update
  by_cases hc : d.core_state = CoreState.Running
  · simp only [hc, if_true]
    exact OnInclude_exclude blockstats GetDescription _
  · simp only [hc, if_false]
    exact OnInclude_exclude blockstats GetDescription _

theorem Update_false_include (blockstats : List BlockStat) (GetDescription : Nat → List Char)
    (d : CodeDiffDialog) :
    (Update false blockstats GetDescription d).m_include =
      (OnExclude blockstats GetDescription d).m_include := by
  unfold Update
  by_cases hc : d.core_state = CoreState.Running
  · simp only [hc, if_true, Bool.false_eq_true, if_false]
    exact (@OnExclude_congr blockstats GetDescription d
      { d with core_state := CoreState.Paused } rfl rfl).1
  · simp only [hc, if_false, Bool.false_eq_true]

theorem Update_false_exclude (blockstats : List BlockStat) (GetDescription : Nat → List Char)
    (d : CodeDiffDialog) :
    (Update false blockstats GetDescription d).m_exclude =
      (OnExclude blockstats GetDescription d).m_exclude := by
  unfold Update
  by_cases hc : d.core_state = CoreState.Running
  · simp only [hc, if_true, Bool.false_eq_true, if_false]
    exact (@OnExclude_congr blockstats GetDescription d
      { d with core_state := CoreState.Paused } rfl rfl).2
  · simp only [hc, if_false, Bool.false_eq_true]

theorem Update_rows (incl : Bool) (blockstats : List BlockStat)
    (GetDescription : Nat → List Char) (d : CodeDiffDialog) :
    (Update incl blockstats GetDescription d).m_matching_results_list =
      Row.header :: (Update incl blockstats GetDescription d).m_include.map Row.entry := by
  unfold Update
  by_cases hc : d.core_state = CoreState.Running
  · simp only [hc, if_true]
  · simp only [hc, if_false]

theorem ClearBlockCache_lists (d : CodeDiffDialog) :
    (ClearBlockCache d).m_include = d.m_include ∧ (ClearBlockCache d).m_exclude = d.m_exclude ∧
    (ClearBlockCache d).m_matching_results_list = d.m_matching_results_list := by
  by_cases hc : d.core_state = CoreState.Running
  · simp [ClearBlockCache, hc]
  · simp [ClearBlockCache, hc]

/-- The record slot never touches the two vectors or the result list. -/
theorem OnRecord_lists (symbols_empty : Bool) :
    ∀ (fuel : Nat) (enabled : Bool) (d d' : CodeDiffDialog),
      OnRecord symbols_empty fuel enabled d = some d' →
        d'.m_include = d.m_include ∧ d'.m_exclude = d.m_exclude ∧
        d'.m_matching_results_list = d.m_matching_results_list := by
  intro fuel
  induction fuel with
  | zero => intro enabled d d' h; simp [OnRecord] at h
  | succ fuel ih =>
    intro enabled d d' h
    have hfail : ∀ d1 : CodeDiffDialog, d1.m_include = d.m_include →
        d1.m_exclude = d.m_exclude →
        d1.m_matching_results_list = d.m_matching_results_list →
        setChecked (fun b s => OnRecord symbols_empty fuel b s) false d1 = some d' →
        d'.m_include = d.m_include ∧ d'.m_exclude = d.m_exclude ∧
        d'.m_matching_results_list = d.m_matching_results_list := by
      intro d1 h1 h2 h3 hs
      unfold setChecked at hs
      split at hs
      · cases hs; exact ⟨h1, h2, h3⟩
      · obtain ⟨k1, k2, k3⟩ := ih _ _ _ hs
        exact ⟨k1.trans h1, k2.trans h2, k3.trans h3⟩
    unfold OnRecord at h
    split at h
    · cases h; exact ⟨rfl, rfl, rfl⟩
    · split at h
      · exact hfail { d with m_failed_requirements := true } rfl rfl rfl h
      · split at h
        · exact hfail { d with m_failed_requirements := true } rfl rfl rfl h
        · obtain ⟨c1, c2, c3⟩ := ClearBlockCache_lists d
          split at h <;> (cases h; exact ⟨c1, c2, c3⟩)

theorem toggle_lists {symbols_empty : Bool} {fuel : Nat} {d d' : CodeDiffDialog}
    (h : toggle symbols_empty fuel d = some d') :
    d'.m_include = d.m_include ∧ d'.m_exclude = d.m_exclude ∧
    d'.m_matching_results_list = d.m_matching_results_list := by
  unfold toggle setChecked at h
  split at h
  · cases h; exact ⟨rfl, rfl, rfl⟩
  · exact OnRecord_lists symbols_empty fuel (!d.m_record_btn_checked)
      { d with m_record_btn_checked := !d.m_record_btn_checked } d' h

theorem ClearData_lists {symbols_empty : Bool} {fuel : Nat} {d d' : CodeDiffDialog}
    (h : ClearData symbols_empty fuel d = some d') :
    d'.m_include = [] ∧ d'.m_exclude = [] ∧ d'.m_matching_results_list = [] := by
  unfold ClearData at h
  obtain ⟨d1, _, hd1⟩ := Option.map_eq_some'.mp h
  rw [← hd1]
  exact ⟨rfl, rfl, rfl⟩

/-- With two units of fuel the record slot always returns: the only
re-entrant call finds `m_failed_requirements` set and returns at once. -/
theorem OnRecord_returns (symbols_empty : Bool) (fuel : Nat) (enabled : Bool)
    (d : CodeDiffDialog) : ∃ d', OnRecord symbols_empty (fuel + 2) enabled d = some d' := by
  have hfail : ∀ d1 : CodeDiffDialog, d1.m_failed_requirements = true →
      ∃ d', setChecked (fun b s => OnRecord symbols_empty (fuel + 1) b s) false d1 = some d' := by
    intro d1 h1
    unfold setChecked
    split
    · exact ⟨_, rfl⟩
    · unfold OnRecord
      simp [h1]
  unfold OnRecord
  split
  · exact ⟨_, rfl⟩
  · split
    · exact hfail _ rfl
    · split
      · exact hfail _ rfl
      · split <;> exact ⟨_, rfl⟩

theorem toggle_returns (symbols_empty : Bool) (fuel : Nat) (d : CodeDiffDialog) :
    ∃ d', toggle symbols_empty (fuel + 2) d = some d' := by
  unfold toggle setChecked
  split
  · exact ⟨_, rfl⟩
  · exact OnRecord_returns symbols_empty fuel _ _

theorem ClearData_returns (symbols_empty : Bool) (fuel : Nat) (d : CodeDiffDialog) :
    ∃ d', ClearData symbols_empty (fuel + 2) d = some d' := by
  unfold ClearData
  split
  · obtain ⟨d1, h1⟩ := toggle_returns symbols_empty fuel d
    rw [h1]; exact ⟨_, rfl⟩
  · exact ⟨_, rfl⟩

/-! ## Invariants of the reachable states -/

theorem OnInclude_strict (blockstats : List BlockStat) (GetDescription : Nat → List Char)
    {d : CodeDiffDialog} (hi : StrictlySorted d.m_include) :
    StrictlySorted (OnInclude blockstats GetDescription d).m_include := by
  by_cases h : d.m_include = []
  · by_cases he : d.m_exclude = []
    · rw [OnInclude_both_empty blockstats GetDescription h he]
      exact recorded_strict blockstats GetDescription
    · rw [OnInclude_first_after_exclude blockstats GetDescription h he]
      exact List.Pairwise.sublist (List.filter_sublist _)
        (recorded_strict blockstats GetDescription)
  · rw [OnInclude_nonempty blockstats GetDescription h]
    exact List.Pairwise.sublist (List.filter_sublist _) hi

theorem OnExclude_strict (blockstats : List BlockStat) (GetDescription : Nat → List Char)
    {d : CodeDiffDialog} (hi : StrictlySorted d.m_include) (he : StrictlySorted d.m_exclude) :
    StrictlySorted (OnExclude blockstats GetDescription d).m_include ∧
    StrictlySorted (OnExclude blockstats GetDescription d).m_exclude := by
  by_cases h : d.m_exclude = []
  · obtain ⟨h1, h2⟩ := OnExclude_include_of_empty blockstats GetDescription h
    rw [h1, h2]
    exact ⟨hi, recorded_strict blockstats GetDescription⟩
  · obtain ⟨h1, h2⟩ := OnExclude_of_nonempty blockstats GetDescription h
    rw [h1, h2]
    refine ⟨List.Pairwise.sublist (List.filter_sublist _) hi, ?_⟩
    exact (foldl_exclude_step _ d.m_exclude [] he.sorted
      (recorded_strict blockstats GetDescription).nodup).2.2.2 he

theorem map_eraseIdx_entry (l : List Diff) :
    ∀ k : Nat, (l.map Row.entry).eraseIdx k = (l.eraseIdx k).map Row.entry := by
  induction l with
  | nil => intro k; simp
  | cons x xs ih =>
    intro k
    cases k with
    | zero => simp
    | succ k => simp [ih k]

/-- The state invariant: both vectors strictly ascending by symbol, and the
result list either empty together with `m_include` or the header row followed
by one row per record of `m_include`. -/
theorem reachable_invariant {d : CodeDiffDialog} (h : Reachable d) :
    StrictlySorted d.m_include ∧ StrictlySorted d.m_exclude ∧
    ((d.m_matching_results_list = [] ∧ d.m_include = []) ∨
      d.m_matching_results_list = Row.header :: d.m_include.map Row.entry) := by
  induction h with
  | create core prof =>
    exact ⟨List.Pairwise.nil, List.Pairwise.nil, Or.inl ⟨rfl, rfl⟩⟩
  | mark incl blockstats GetDescription _ ih =>
    obtain ⟨hi, he, _⟩ := ih
    refine ⟨?_, ?_, Or.inr (Update_rows _ _ _ _)⟩
    · cases incl
      · rw [Update_false_include]
        exact (OnExclude_strict blockstats GetDescription hi he).1
      · rw [Update_true_include]
        exact OnInclude_strict blockstats GetDescription hi
    · cases incl
      · rw [Update_false_exclude]
        exact (OnExclude_strict blockstats GetDescription hi he).2
      · rw [Update_true_exclude]
        exact he
  | delete remove_item _ hlo hhi ih =>
    obtain ⟨hi, he, hrows⟩ := ih
    unfold OnDelete
    split
    · exact ⟨hi, he, hrows⟩
    · rename_i hne
      refine ⟨List.Pairwise.sublist (List.eraseIdx_sublist _ _) hi, he, ?_⟩
      rcases hrows with ⟨hr, _⟩ | hr
      · rw [hr] at hhi
        simp at hhi
        omega
      · refine Or.inr ?_
        obtain ⟨k, hk⟩ : ∃ k : Nat, remove_item = (k : Int) + 1 :=
          ⟨(remove_item - 1).toNat, by omega⟩
        have h1 : remove_item.toNat = k + 1 := by omega
        have h2 : (remove_item - 1).toNat = k := by omega
        simp only [h1, h2, hr, List.eraseIdx_cons_succ, map_eraseIdx_entry]
  | clear symbols_empty fuel _ hc _ =>
    obtain ⟨h1, h2, h3⟩ := ClearData_lists hc
    rw [h1, h2, h3]
    exact ⟨List.Pairwise.nil, List.Pairwise.nil, Or.inl ⟨rfl, rfl⟩⟩
  | record symbols_empty fuel _ hc ih =>
    obtain ⟨h1, h2, h3⟩ := toggle_lists hc
    rw [h1, h2, h3]
    exact ih
  | core core _ ih => exact ih

/-- In a reachable state `OnDelete` erases inside `m_include`: a row that is
neither the header nor `-1` has a record behind it. -/
theorem OnDelete_in_range {d : CodeDiffDialog} (h : Reachable d) {remove_item : Int}
    (hlo : -1 ≤ remove_item) (hhi : remove_item < d.m_matching_results_list.length)
    (hne : ¬ (remove_item = 0 ∨ remove_item = -1)) :
    (remove_item - 1).toNat < d.m_include.length := by
  rcases (reachable_invariant h).2.2 with ⟨hr, _⟩ | hr
  · rw [hr] at hhi
    simp at hhi
    omega
  · rw [hr] at hhi
    simp at hhi
    omega

/-! ## The sessions used as examples -/

theorem reachable_recording : Reachable recording :=
  Reachable.record false 1 (Reachable.create CoreState.Running ProfilingState.Disabled) rfl

theorem reachable_scenario_A : Reachable scenario_A :=
  Reachable.mark true snap_foo resolver reachable_recording

/-! ## The claims -/

/-- Claim C1. In every state reachable from a freshly created dialog by mark
presses (`OnInclude`, `OnExclude` through `Update`), `OnDelete`, `ClearData`
(and record clicks and emulator state changes), with any block statistics and
any symbol resolver at each step, `m_include` and `m_exclude` are strictly
ascending by symbol, so neither holds two records with the same symbol. -/
theorem reachable_strictly_sorted (d : CodeDiffDialog) (h : Reachable d) :
    StrictlySorted d.m_include ∧ StrictlySorted d.m_exclude ∧
    (d.m_include.map Diff.symbol).Nodup ∧ (d.m_exclude.map Diff.symbol).Nodup :=
  ⟨(reachable_invariant h).1, (reachable_invariant h).2.1,
    (reachable_invariant h).1.nodup, (reachable_invariant h).2.1.nodup⟩

theorem reachable_strictly_sorted_witness :
    Reachable scenario_C ∧
    (StrictlySorted scenario_C.m_include ∧ StrictlySorted scenario_C.m_exclude ∧
      (scenario_C.m_include.map Diff.symbol).Nodup ∧
      (scenario_C.m_exclude.map Diff.symbol).Nodup) :=
  have hr : Reachable scenario_C :=
    Reachable.mark true snap_both resolver
      (Reachable.mark false snap_bar resolver reachable_scenario_A)
  ⟨hr, reachable_strictly_sorted scenario_C hr⟩

/-- Claim C2. When `m_exclude` is sorted by symbol and `m_include` is not
empty, `OnInclude` leaves `m_exclude` unchanged and keeps of `m_include`, in
order and unmodified, exactly the records that have the same symbol or the
same address as some recorded symbol whose name does not occur in
`m_exclude`: the binary search agrees with plain membership of the name. -/
theorem OnInclude_intersects (blockstats : List BlockStat) (GetDescription : Nat → List Char)
    (d : CodeDiffDialog) (hs : SortedBySymbol d.m_exclude) (hi : d.m_include ≠ []) :
    (OnInclude blockstats GetDescription d).m_exclude = d.m_exclude ∧
    (OnInclude blockstats GetDescription d).m_include =
      d.m_include.filter fun v =>
        ((CalculateSymbolsFromProfile blockstats GetDescription).filter fun p =>
          decide (p.symbol ∉ d.m_exclude.map Diff.symbol)).any
            fun p => p.symbol == v.symbol || p.addr == v.addr := by
  refine ⟨OnInclude_exclude blockstats GetDescription d, ?_⟩
  rw [OnInclude_nonempty blockstats GetDescription hi]
  have hf : ((CalculateSymbolsFromProfile blockstats GetDescription).filter fun p =>
        not_at d.m_exclude (lower_bound d.m_exclude p.symbol) p.symbol) =
      (CalculateSymbolsFromProfile blockstats GetDescription).filter fun p =>
        decide (p.symbol ∉ d.m_exclude.map Diff.symbol) := by
    apply List.filter_congr
    intro p _
    rw [not_at_lower_bound_eq p.symbol hs, decide_not]
  rw [hf]
  rfl

theorem OnInclude_intersects_witness :
    SortedBySymbol scenario_B.m_exclude ∧ scenario_B.m_include ≠ [] ∧
    ((OnInclude snap_both resolver scenario_B).m_exclude = scenario_B.m_exclude ∧
     (OnInclude snap_both resolver scenario_B).m_include =
      scenario_B.m_include.filter fun v =>
        ((CalculateSymbolsFromProfile snap_both resolver).filter fun p =>
          decide (p.symbol ∉ scenario_B.m_exclude.map Diff.symbol)).any
            fun p => p.symbol == v.symbol || p.addr == v.addr) :=
  ⟨by decide, by decide, OnInclude_intersects snap_both resolver scenario_B (by decide) (by decide)⟩

/-- Claim C3. The code at the failing input: with `m_include = [foo]` and an
empty `m_exclude`, `OnExclude` on a recording of `foo` sets `m_exclude` to the
recorded symbols but leaves `foo` in `m_include`, because `current_diff` is
still empty when `RemoveMatchingSymbolsFromIncludes` is called. -/
theorem OnExclude_first_keeps_include :
    Reachable scenario_A ∧ scenario_A.m_include = [foo5] ∧ scenario_A.m_exclude = [] ∧
    CalculateSymbolsFromProfile snap_foo_again resolver =
      [{ symbol := "foo".toList, addr := 0x100, hits := 0 }] ∧
    (OnExclude snap_foo_again resolver scenario_A).m_exclude =
      [{ symbol := "foo".toList, addr := 0x100, hits := 0 }] ∧
    (OnExclude snap_foo_again resolver scenario_A).m_include = [foo5] :=
  ⟨reachable_scenario_A, by decide, by decide, by decide, by decide, by decide⟩

/-- Claim C4. When `m_exclude` is not empty and sorted by symbol, `OnExclude`
makes it the sorted merge of the old records, kept in their order, with the
recorded symbols whose name was not in it, and erases from `m_include` exactly
the records that have the same symbol or address as one of those added
records; a record of `m_include` that matches none of the added records
stays, whatever it matches among the old records of `m_exclude`. -/
theorem OnExclude_merges (blockstats : List BlockStat) (GetDescription : Nat → List Char)
    (d : CodeDiffDialog) (hne : d.m_exclude ≠ []) (hs : SortedBySymbol d.m_exclude) :
    SortedBySymbol (OnExclude blockstats GetDescription d).m_exclude ∧
    (StrictlySorted d.m_exclude →
      StrictlySorted (OnExclude blockstats GetDescription d).m_exclude) ∧
    (OnExclude blockstats GetDescription d).m_exclude.Perm
      (d.m_exclude ++ (CalculateSymbolsFromProfile blockstats GetDescription).filter
        fun p => decide (p.symbol ∉ d.m_exclude.map Diff.symbol)) ∧
    d.m_exclude.Sublist (OnExclude blockstats GetDescription d).m_exclude ∧
    (OnExclude blockstats GetDescription d).m_include =
      d.m_include.filter (fun i =>
        !(((CalculateSymbolsFromProfile blockstats GetDescription).filter
          fun p => decide (p.symbol ∉ d.m_exclude.map Diff.symbol)).any
            fun s => i.symbol == s.symbol || i.addr == s.addr)) ∧
    (∀ i ∈ d.m_include,
      (∀ s ∈ CalculateSymbolsFromProfile blockstats GetDescription,
        s.symbol ∉ d.m_exclude.map Diff.symbol → i.symbol ≠ s.symbol ∧ i.addr ≠ s.addr) →
      i ∈ (OnExclude blockstats GetDescription d).m_include) := by
  obtain ⟨h1, h2⟩ := OnExclude_of_nonempty blockstats GetDescription hne
  obtain ⟨k1, k2, k3, k4⟩ := foldl_exclude_step
    (CalculateSymbolsFromProfile blockstats GetDescription) d.m_exclude [] hs
    (recorded_strict blockstats GetDescription).nodup
  have hf : ((CalculateSymbolsFromProfile blockstats GetDescription).filter
        fun p => !decide (p.symbol ∈ d.m_exclude.map Diff.symbol)) =
      (CalculateSymbolsFromProfile blockstats GetDescription).filter
        fun p => decide (p.symbol ∉ d.m_exclude.map Diff.symbol) := by
    apply List.filter_congr
    intro p _
    rw [decide_not]
  rw [hf] at k1 k3
  rw [List.nil_append] at k1
  have hinc : (OnExclude blockstats GetDescription d).m_include =
      d.m_include.filter (fun i =>
        !(((CalculateSymbolsFromProfile blockstats GetDescription).filter
          fun p => decide (p.symbol ∉ d.m_exclude.map Diff.symbol)).any
            fun s => i.symbol == s.symbol || i.addr == s.addr)) := by
    rw [h2, k1]; rfl
  refine ⟨h1 ▸ k2, ?_, h1 ▸ k3, ?_, hinc, ?_⟩
  · intro hst; rw [h1]; exact k4 hst
  · rw [h1]; exact foldl_exclude_step_sublist _ _ _
  · intro i hi hno
    rw [hinc, List.mem_filter]
    refine ⟨hi, ?_⟩
    rw [Bool.not_eq_true', List.any_eq_false]
    intro s hsm
    rw [List.mem_filter] at hsm
    have hnot : s.symbol ∉ d.m_exclude.map Diff.symbol := by simpa using hsm.2
    obtain ⟨n1, n2⟩ := hno s hsm.1 hnot
    simp [n1, n2]

theorem OnExclude_merges_witness :
    scenario_C.m_exclude ≠ [] ∧ SortedBySymbol scenario_C.m_exclude ∧
    (OnExclude snap_both resolver scenario_C).m_exclude.Perm
      (scenario_C.m_exclude ++ (CalculateSymbolsFromProfile snap_both resolver).filter
        fun p => decide (p.symbol ∉ scenario_C.m_exclude.map Diff.symbol)) ∧
    (OnExclude snap_both resolver scenario_C).m_include =
      scenario_C.m_include.filter (fun i =>
        !(((CalculateSymbolsFromProfile snap_both resolver).filter
          fun p => decide (p.symbol ∉ scenario_C.m_exclude.map Diff.symbol)).any
            fun s => i.symbol == s.symbol || i.addr == s.addr)) :=
  ⟨by decide, by decide,
    (OnExclude_merges snap_both resolver scenario_C (by decide) (by decide)).2.2.1,
    (OnExclude_merges snap_both resolver scenario_C (by decide) (by decide)).2.2.2.2.1⟩

/-- Claim C5. The code at the failing input: positive evidence `foo` followed
by negative evidence `foo` is a reachable state in which `foo` is in
`m_exclude` and still in `m_include`: the exclude list was not subtracted from
the include list. -/
theorem include_then_exclude_overlap :
    Reachable include_then_exclude ∧
    include_then_exclude.m_include = [foo5] ∧ include_then_exclude.m_exclude = [foo5] ∧
    (∃ i ∈ include_then_exclude.m_include, ∃ e ∈ include_then_exclude.m_exclude,
      same_symbol_or_addr i e = true) :=
  ⟨Reachable.mark false snap_foo resolver reachable_scenario_A,
    by decide, by decide, by decide⟩

/-- Claim C6, as stated, fails: from the reachable state with
`m_include = [foo]`, a first positive evidence `bar` empties `m_include`, and
the same evidence again fills it with `bar`. -/
theorem second_positive_refills :
    Reachable scenario_A ∧
    (Update true snap_bar resolver scenario_A).m_include = [] ∧
    (Update true snap_bar resolver (Update true snap_bar resolver scenario_A)).m_include =
      [bar3] ∧
    (Update true snap_bar resolver (Update true snap_bar resolver scenario_A)).m_include ≠
      (Update true snap_bar resolver scenario_A).m_include :=
  ⟨reachable_scenario_A, by decide, by decide, by decide⟩

/-- Claim C6, amended. For every state and recording, a second positive
evidence with the same recording leaves `m_include` as the first left it
whenever the first left it non-empty; when the first left it empty, the second
takes it as not yet filled and sets it to the recorded symbols that have
neither the symbol nor the address of a record of `m_exclude`. -/
theorem MarkPositive_twice (blockstats : List BlockStat) (GetDescription : Nat → List Char)
    (d : CodeDiffDialog) :
    (Update true blockstats GetDescription
        (Update true blockstats GetDescription d)).m_include =
      if (Update true blockstats GetDescription d).m_include = [] then
        (CalculateSymbolsFromProfile blockstats GetDescription).filter fun r =>
          !(d.m_exclude.any fun e => same_symbol_or_addr r e)
      else (Update true blockstats GetDescription d).m_include := by
  have hex := Update_true_exclude blockstats GetDescription d
  rw [Update_true_include blockstats GetDescription (Update true blockstats GetDescription d)]
  by_cases h1 : (Update true blockstats GetDescription d).m_include = []
  · rw [if_pos h1]
    by_cases he : d.m_exclude = []
    · rw [OnInclude_both_empty blockstats GetDescription h1 (hex.trans he), he]
      simp
    · rw [OnInclude_first_after_exclude blockstats GetDescription h1 (hex ▸ he), hex]
  · rw [if_neg h1, OnInclude_nonempty blockstats GetDescription h1, hex]
    apply List.filter_eq_self.mpr
    intro v hv
    rw [Update_true_include] at hv
    by_cases hi : d.m_include = []
    · have hself : same_symbol_or_addr v v = true := by simp [same_symbol_or_addr]
      rw [List.any_eq_true]
      refine ⟨v, ?_, hself⟩
      rw [List.mem_filter]
      by_cases he : d.m_exclude = []
      · rw [OnInclude_both_empty blockstats GetDescription hi he] at hv
        refine ⟨hv, ?_⟩
        rw [he]; rfl
      · rw [OnInclude_first_after_exclude blockstats GetDescription hi he,
          List.mem_filter] at hv
        refine ⟨hv.1, ?_⟩
        cases hn : not_at d.m_exclude (lower_bound d.m_exclude v.symbol) v.symbol
        · exfalso
          obtain ⟨e, hem, hes⟩ := List.mem_map.mp (mem_of_not_at_false hn)
          have hany : (d.m_exclude.any fun s => same_symbol_or_addr v s) = true := by
            rw [List.any_eq_true]
            exact ⟨e, hem, by simp [same_symbol_or_addr, hes]⟩
          rw [hany] at hv
          simp at hv
        · rfl
    · rw [OnInclude_nonempty blockstats GetDescription hi, List.mem_filter] at hv
      exact hv.2

/-- Claim C7. `CalculateSymbolsFromProfile` returns a vector strictly
ascending by symbol; its symbols are exactly the descriptions of the recorded
blocks; its records are exactly those built from the first block, in
iteration order, of each description; two blocks with the same description
give one record, the first; no blocks give no records. -/
theorem CalculateSymbolsFromProfile_spec (blockstats : List BlockStat)
    (GetDescription : Nat → List Char) :
    StrictlySorted (CalculateSymbolsFromProfile blockstats GetDescription) ∧
    (∀ n, n ∈ (CalculateSymbolsFromProfile blockstats GetDescription).map Diff.symbol ↔
      ∃ b ∈ blockstats, GetDescription b.addr = n) ∧
    (∀ d, d ∈ CalculateSymbolsFromProfile blockstats GetDescription ↔
      ∃ b, blockstats.find? (fun x => GetDescription x.addr == d.symbol) = some b ∧
        d = { symbol := GetDescription b.addr, addr := b.addr, hits := b.run_count }) ∧
    (∀ a b : BlockStat, GetDescription a.addr = GetDescription b.addr →
      CalculateSymbolsFromProfile [a, b] GetDescription =
        [{ symbol := GetDescription a.addr, addr := a.addr, hits := a.run_count }]) ∧
    CalculateSymbolsFromProfile [] GetDescription = [] := by
  refine ⟨recorded_strict _ _, recorded_symbols_iff _ _, recorded_mem_iff _ _, ?_, rfl⟩
  intro a b hab
  simp [CalculateSymbolsFromProfile, add_block, hab, sort, sort_insert]

theorem CalculateSymbolsFromProfile_spec_witness :
    resolver 0x200 = resolver 0x204 ∧
    CalculateSymbolsFromProfile
      [{ addr := 0x200, run_count := 3 }, { addr := 0x204, run_count := 7 }] resolver =
      [{ symbol := resolver 0x200, addr := 0x200, hits := 3 }] :=
  ⟨by decide,
    (CalculateSymbolsFromProfile_spec
        [{ addr := 0x200, run_count := 3 }, { addr := 0x204, run_count := 7 }] resolver).2.2.2.1
      { addr := 0x200, run_count := 3 } { addr := 0x204, run_count := 7 } (by decide)⟩

/-- Claim C8. For every state, a positive mark and a delete leave `m_exclude`
exactly as it was, and a negative mark keeps every old record of `m_exclude`,
in order, so its size does not decrease. -/
theorem exclude_only_grows (blockstats : List BlockStat) (GetDescription : Nat → List Char)
    (remove_item : Int) (d : CodeDiffDialog) :
    (Update true blockstats GetDescription d).m_exclude = d.m_exclude ∧
    (OnDelete remove_item d).m_exclude = d.m_exclude ∧
    d.m_exclude.Sublist (Update false blockstats GetDescription d).m_exclude ∧
    d.m_exclude.length ≤ (Update false blockstats GetDescription d).m_exclude.length ∧
    (∀ x ∈ d.m_exclude, x ∈ (Update false blockstats GetDescription d).m_exclude) := by
  have hsub : d.m_exclude.Sublist (Update false blockstats GetDescription d).m_exclude := by
    rw [Update_false_exclude]
    by_cases he : d.m_exclude = []
    · rw [he]; exact List.nil_sublist _
    · rw [(OnExclude_of_nonempty blockstats GetDescription he).1]
      exact foldl_exclude_step_sublist _ _ _
  refine ⟨Update_true_exclude _ _ _, ?_, hsub, hsub.length_le, fun x hx => hsub.subset hx⟩
  unfold OnDelete
  split <;> rfl

/-- Claim C9. When `m_include` is empty and `m_exclude` is not, `OnInclude`
leaves `m_exclude` unchanged and sets `m_include` to the recorded symbols, in
order, that have neither the symbol nor the address of a record of
`m_exclude`. -/
theorem OnInclude_first_positive (blockstats : List BlockStat)
    (GetDescription : Nat → List Char) (d : CodeDiffDialog) (hi : d.m_include = [])
    (he : d.m_exclude ≠ []) :
    (OnInclude blockstats GetDescription d).m_exclude = d.m_exclude ∧
    (OnInclude blockstats GetDescription d).m_include =
      (CalculateSymbolsFromProfile blockstats GetDescription).filter fun r =>
        !(d.m_exclude.any fun e => r.symbol == e.symbol || r.addr == e.addr) :=
  ⟨OnInclude_exclude blockstats GetDescription d,
    OnInclude_first_after_exclude blockstats GetDescription hi he⟩

theorem OnInclude_first_positive_witness :
    exclude_first.m_include = [] ∧ exclude_first.m_exclude ≠ [] ∧
    ((OnInclude snap_both resolver exclude_first).m_exclude = exclude_first.m_exclude ∧
     (OnInclude snap_both resolver exclude_first).m_include =
      (CalculateSymbolsFromProfile snap_both resolver).filter fun r =>
        !(exclude_first.m_exclude.any fun e => r.symbol == e.symbol || r.addr == e.addr)) :=
  ⟨by decide, by decide,
    OnInclude_first_positive snap_both resolver exclude_first (by decide) (by decide)⟩

/-- Claim C10. The code at the failing input, for any fuel: the dialog is
recording (one click on the fresh dialog), the emulation has been stopped, and
the record button is clicked to stop. The slot shows the precondition message
and returns with `m_failed_requirements` set (the `setChecked(false)` meant to
clear it emits nothing, the button being unchecked already), both mark
buttons still enabled and profiling still enabled. The same happens when the
symbol table has become empty. The next click, with the emulator running
again, only clears the flag and clears no cache. -/
theorem stop_recording_uninitialized (fuel : Nat) :
    Reachable recording_stopped ∧
    toggle false (fuel + 1) fresh = some recording ∧
    toggle false (fuel + 1) recording_stopped =
      some { recording_stopped with
        m_record_btn_checked := false, m_failed_requirements := true } ∧
    toggle true (fuel + 1) recording =
      some { recording with m_record_btn_checked := false, m_failed_requirements := true } ∧
    toggle false (fuel + 1)
        { recording_stopped with
          m_record_btn_checked := false, m_failed_requirements := true,
          core_state := CoreState.Running } =
      some recording :=
  ⟨Reachable.core CoreState.Uninitialized reachable_recording, rfl, rfl, rfl, rfl⟩

end CodeDiff
